import Mathlib

/-!
Verification of the CSV-to-inventory aggregation routine of the OCIHorizon
repository. The routine under study is `processCSVData` in `src/App.tsx`
(lines 65-104); the item type is `OCIConsumptionRow` from `src/types.ts`.

Modelling conventions:
* a raw CSV row is a `List String`; the whole parse result is a
  `List (List String)`;
* JavaScript numbers are modelled as exact rationals `ℚ`.  Every value that
  `parseFloat` can produce from a decimal literal is a rational; IEEE-754
  rounding and the `Infinity` literals are outside the model (no claim
  exercises them, and `Infinity` is treated as unparsable below);
* the early return `if (data.length === 0) return;` (line 67) produces no
  aggregated output at all, which we model by an `Option` result: `none`
  means the routine returned without publishing any inventory;
* the JavaScript object `skuMap` with string keys preserves insertion order
  for the non-numeric SKU keys used here; it is modelled as an association
  list (`List OCIConsumptionRow`, keyed by the `sku` field) to which fresh
  keys are appended at the end;
* `Array.prototype.sort` with comparator `(a, b) => b.cost - a.cost` is
  modelled by insertion sort with the relation `b.cost ≤ a.cost`; every
  claim about the output ignores the relative order of cost ties, so any
  correct sorting algorithm is an adequate model.
-/

namespace OCIHorizon

/-- The aggregated billing item (`interface OCIConsumptionRow` in
`src/types.ts`); `processCSVData` never sets the optional `region` and
`shape` fields, so they are omitted. -/
structure OCIConsumptionRow where
  sku : String
  productName : String
  unit : String
  usageAmount : ℚ
  cost : ℚ
  deriving DecidableEq

/-- JavaScript `String.prototype.trim`, on the character list: drop
whitespace from both ends. -/
def trimChars (cs : List Char) : List Char :=
  ((cs.dropWhile Char.isWhitespace).reverse.dropWhile Char.isWhitespace).reverse

/-- `trim` on strings. -/
def strTrim (s : String) : String := ⟨trimChars s.data⟩

/-- The separator of the composite description cell: the argument of
`fullSkuString.indexOf(' - ')` at line 77. -/
def sepChars : List Char := [' ', '-', ' ']

/-- JavaScript `indexOf(' - ')`: index of the first occurrence of the
separator, `none` when absent (the source's `-1`). -/
def firstDashIdx : List Char → Option Nat
  | [] => none
  | c :: rest =>
    if sepChars.isPrefixOf (c :: rest) then some 0
    else (firstDashIdx rest).map (· + 1)

/-- Lines 77-79: split the composite description cell on the first
occurrence of the separator; before it (trimmed) is the SKU id, after it
(trimmed) is the product name; with no separator the whole trimmed cell is
both. -/
def splitSku (s : String) : String × String :=
  match firstDashIdx s.data with
  | some i => (strTrim ⟨s.data.take i⟩, strTrim ⟨s.data.drop (i + 3)⟩)
  | none => (strTrim s, strTrim s)

/-- Numeric value of a decimal digit character. -/
def digitVal (c : Char) : Nat := c.toNat - 48

/-- Value of a digit string, most significant digit first. -/
def digitsToNat (ds : List Char) : Nat :=
  ds.foldl (fun a c => 10 * a + digitVal c) 0

/-- The optional exponent part of a JavaScript decimal literal: consumed
only when `e`/`E` is followed by an optional sign and at least one digit;
otherwise it contributes exponent `0` (the shorter prefix is the parse). -/
def parseExpPart : List Char → Int
  | [] => 0
  | c :: rest =>
    if c = 'e' ∨ c = 'E' then
      match rest with
      | '+' :: r2 =>
        if r2.takeWhile Char.isDigit = [] then 0
        else (digitsToNat (r2.takeWhile Char.isDigit) : Int)
      | '-' :: r2 =>
        if r2.takeWhile Char.isDigit = [] then 0
        else -(digitsToNat (r2.takeWhile Char.isDigit) : Int)
      | r2 =>
        if r2.takeWhile Char.isDigit = [] then 0
        else (digitsToNat (r2.takeWhile Char.isDigit) : Int)
    else 0

/-- Exact value of a decimal literal with integer digits `ip`, fraction
digits `fp` and exponent `e`. -/
def decValue (ip fp : List Char) (e : Int) : ℚ :=
  let m : Int := (digitsToNat (ip ++ fp) : Int)
  let scale : Int := e - (fp.length : Int)
  if 0 ≤ scale then mkRat (m * 10 ^ scale.toNat) 1 else mkRat m (10 ^ (-scale).toNat)

/-- The unsigned part of JavaScript `parseFloat`: the longest prefix that is
`digits [. digits?] exp?` or `. digits exp?`; `none` when no such prefix
exists (the source's `NaN`). -/
def parseUnsigned : List Char → Option ℚ
  | [] => none
  | c :: r =>
    if c = '.' then
      if r.takeWhile Char.isDigit = [] then none
      else some (decValue [] (r.takeWhile Char.isDigit)
        (parseExpPart (r.dropWhile Char.isDigit)))
    else if c.isDigit then
      match (c :: r).dropWhile Char.isDigit with
      | '.' :: r2 =>
        some (decValue ((c :: r).takeWhile Char.isDigit) (r2.takeWhile Char.isDigit)
          (parseExpPart (r2.dropWhile Char.isDigit)))
      | r1 =>
        some (decValue ((c :: r).takeWhile Char.isDigit) [] (parseExpPart r1))
    else none

/-- JavaScript `parseFloat` on a string: skip leading whitespace, optional
sign, then the longest decimal-literal prefix; `none` models `NaN`.  The
`Infinity` literals are not representable in `ℚ` and are treated as
unparsable; no claim exercises them. -/
def parseFloatQ (s : String) : Option ℚ :=
  match s.data.dropWhile Char.isWhitespace with
  | '+' :: r => parseUnsigned r
  | '-' :: r => (parseUnsigned r).map (fun q => -q)
  | r => parseUnsigned r

/-- Lines 81-82: `parseFloat(x) || 0` — an unparsable cell (`NaN`) counts
as `0` (a parsed `0` is also `0`, so `|| 0` adds nothing else over `ℚ`). -/
def jsNum (s : String) : ℚ := (parseFloatQ s).getD 0

/-- `row[i]` for a row that may be shorter than expected. -/
def cell (row : List String) (i : Nat) : String := row.getD i ""

/-- A row survives the guards of lines 73-75: at least 9 cells and a
description cell that is not the empty string (JavaScript falsiness of
`row[2]`; note: no trimming is applied by the guard). -/
def validRow (row : List String) : Bool :=
  decide (9 ≤ row.length) && decide (cell row 2 ≠ "")

/-- The extracted SKU id of a row (line 78). -/
def rowSku (row : List String) : String := (splitSku (cell row 2)).1

/-- The extracted product name of a row (line 79). -/
def rowName (row : List String) : String := (splitSku (cell row 2)).2

/-- The parsed usage amount of a row (line 81). -/
def rowUsage (row : List String) : ℚ := jsNum (cell row 4)

/-- The parsed cost of a row (line 82). -/
def rowCost (row : List String) : ℚ := jsNum (cell row 8)

/-- Lines 84-89: update of `skuMap` by one row's extracted fields: the
first entry with the given SKU accumulates usage and cost; a fresh SKU is
appended with all five fields of the row. -/
def addToMap : List OCIConsumptionRow → String → String → String → ℚ → ℚ →
    List OCIConsumptionRow
  | [], i, pn, u, q, c => [⟨i, pn, u, q, c⟩]
  | x :: xs, i, pn, u, q, c =>
    if x.sku = i then
      { x with usageAmount := x.usageAmount + q, cost := x.cost + c } :: xs
    else
      x :: addToMap xs i pn u q c

/-- Lines 72-90, body of `rows.forEach`: skip a short row or a row with an
empty description cell, otherwise fold the row into the map. -/
def processRow (acc : List OCIConsumptionRow) (row : List String) :
    List OCIConsumptionRow :=
  if row.length < 9 then acc
  else if cell row 2 = "" then acc
  else addToMap acc (rowSku row) (rowName row) (cell row 3) (rowUsage row) (rowCost row)

/-- The whole `forEach` loop starting from the empty `skuMap`. -/
def foldRows (rows : List (List String)) : List OCIConsumptionRow :=
  rows.foldl processRow []

/-- Line 92: `Object.values(skuMap).sort((a, b) => b.cost - a.cost)`. -/
def sortByCostDesc (l : List OCIConsumptionRow) : List OCIConsumptionRow :=
  l.insertionSort (fun a b => b.cost ≤ a.cost)

/-- The aggregation applied to the rows that survive header stripping. -/
def aggregate (rows : List (List String)) : List OCIConsumptionRow :=
  sortByCostDesc (foldRows rows)

/-- The header sentinel of line 70. -/
def headerSentinel : String := "Subscription Plan Number"

/-- Line 70: drop the first row exactly when its first cell is the header
sentinel. -/
def stripHeader (data : List (List String)) : List (List String) :=
  if data.head?.bind List.head? = some headerSentinel then data.tail else data

/-- `processCSVData` (lines 65-92) as a function from the parse result to
the published inventory: `none` models the early return of line 67 (no
inventory is published at all), `some` carries the aggregated, sorted
inventory that line 95-100 publishes. -/
def processCSVData (data : List (List String)) : Option (List OCIConsumptionRow) :=
  if data = [] then none else some (aggregate (stripHeader data))

/-- The valid rows of an input whose extracted SKU id is `d`. -/
def vrows (rows : List (List String)) (d : String) : List (List String) :=
  rows.filter (fun r => validRow r && decide (rowSku r = d))

/-- The SKU ids extracted from the valid rows, with multiplicity. -/
def validIds (rows : List (List String)) : List String :=
  (rows.filter validRow).map rowSku

/-- Sum of the parsed usage over the valid rows with SKU id `d`. -/
def sumUsage (rows : List (List String)) (d : String) : ℚ :=
  ((vrows rows d).map rowUsage).sum

/-- Sum of the parsed cost over the valid rows with SKU id `d`. -/
def sumCost (rows : List (List String)) (d : String) : ℚ :=
  ((vrows rows d).map rowCost).sum

/-- First map entry with SKU id `d` (there is at most one: see
`foldRows_sku_nodup`). -/
def lookup (l : List OCIConsumptionRow) (d : String) : Option OCIConsumptionRow :=
  l.find? (fun it => decide (it.sku = d))

/-! ### Basic facts about the row guard and the map update -/

lemma validRow_iff (row : List String) :
    validRow row = true ↔ 9 ≤ row.length ∧ cell row 2 ≠ "" := by
  simp [validRow]

lemma processRow_valid (acc : List OCIConsumptionRow) (row : List String)
    (h : validRow row = true) :
    processRow acc row =
      addToMap acc (rowSku row) (rowName row) (cell row 3) (rowUsage row) (rowCost row) := by
  rcases (validRow_iff row).1 h with ⟨h1, h2⟩
  unfold processRow
  rw [if_neg (by omega), if_neg h2]

lemma processRow_invalid (acc : List OCIConsumptionRow) (row : List String)
    (h : validRow row = false) : processRow acc row = acc := by
  by_cases h9 : row.length < 9
  · simp [processRow, h9]
  · have h2 : cell row 2 = "" := by
      by_contra hc
      rw [(validRow_iff row).2 ⟨by omega, hc⟩] at h
      exact Bool.true_eq_false.mp h
    simp [processRow, h9, h2]

lemma addToMap_sku_map (l : List OCIConsumptionRow) (i pn u : String) (q c : ℚ) :
    (addToMap l i pn u q c).map OCIConsumptionRow.sku =
      if i ∈ l.map OCIConsumptionRow.sku then l.map OCIConsumptionRow.sku
      else l.map OCIConsumptionRow.sku ++ [i] := by
  induction l with
  | nil => simp [addToMap]
  | cons x xs ih =>
    by_cases hx : x.sku = i
    · simp [addToMap, hx]
    · simp only [addToMap, if_neg hx, List.map_cons, ih, List.mem_cons]
      by_cases hm : i ∈ xs.map OCIConsumptionRow.sku
      · simp [hm, Ne.symm hx]
      · simp [hm, Ne.symm hx]

lemma lookup_nil (d : String) : lookup [] d = none := rfl

lemma lookup_cons (x : OCIConsumptionRow) (xs : List OCIConsumptionRow) (d : String) :
    lookup (x :: xs) d = if x.sku = d then some x else lookup xs d := by
  by_cases h : x.sku = d <;> simp [lookup, List.find?_cons, h]

lemma lookup_addToMap (l : List OCIConsumptionRow) (i pn u : String) (q c : ℚ)
    (d : String) :
    lookup (addToMap l i pn u q c) d =
      match lookup l d with
      | some x =>
        some (if i = d then
          { x with usageAmount := x.usageAmount + q, cost := x.cost + c } else x)
      | none => if i = d then some ⟨i, pn, u, q, c⟩ else none := by
  induction l with
  | nil =>
    by_cases h : i = d <;> simp [addToMap, lookup_nil, lookup_cons, h]
  | cons x xs ih =>
    by_cases hx : x.sku = i
    · subst hx
      by_cases hd : x.sku = d
      · subst hd
        simp [addToMap, lookup_cons]
      · simp [addToMap, lookup_cons, hd]
        cases h : lookup xs d <;> simp [hd]
    · by_cases hxd : x.sku = d
      · have hid : ¬ i = d := fun h => hx (hxd.trans h.symm)
        simp [addToMap, hx, lookup_cons, hxd, hid, Ne.symm hid]
      · simp [addToMap, hx, lookup_cons, hxd, ih]

/-! ### The accumulation invariant of the forEach loop -/

lemma vrows_cons (r : List String) (rest : List (List String)) (d : String) :
    vrows (r :: rest) d =
      if validRow r = true ∧ rowSku r = d then r :: vrows rest d else vrows rest d := by
  by_cases h : validRow r = true ∧ rowSku r = d
  · simp [vrows, List.filter_cons, h.1, h.2]
  · have hb : ¬ (validRow r && decide (rowSku r = d)) = true := by
      simpa [Bool.and_eq_true] using h
    simp [vrows, List.filter_cons, hb, h]

lemma sumUsage_nil (d : String) : sumUsage [] d = 0 := rfl

lemma sumCost_nil (d : String) : sumCost [] d = 0 := rfl

lemma sumUsage_cons (r : List String) (rest : List (List String)) (d : String) :
    sumUsage (r :: rest) d =
      if validRow r = true ∧ rowSku r = d then rowUsage r + sumUsage rest d
      else sumUsage rest d := by
  simp only [sumUsage, vrows_cons]
  split <;> simp

lemma sumCost_cons (r : List String) (rest : List (List String)) (d : String) :
    sumCost (r :: rest) d =
      if validRow r = true ∧ rowSku r = d then rowCost r + sumCost rest d
      else sumCost rest d := by
  simp only [sumCost, vrows_cons]
  split <;> simp

lemma foldl_lookup_some (rows : List (List String)) :
    ∀ (acc : List OCIConsumptionRow) (d : String) (x : OCIConsumptionRow),
      lookup acc d = some x →
      lookup (rows.foldl processRow acc) d =
        some ⟨x.sku, x.productName, x.unit, x.usageAmount + sumUsage rows d,
          x.cost + sumCost rows d⟩ := by
  induction rows with
  | nil =>
    intro acc d x h
    simp [sumUsage_nil, sumCost_nil, h]
  | cons r rest ih =>
    intro acc d x h
    simp only [List.foldl_cons]
    by_cases hv : validRow r = true
    · rw [processRow_valid _ _ hv]
      by_cases hd : rowSku r = d
      · have h' : lookup
            (addToMap acc (rowSku r) (rowName r) (cell r 3) (rowUsage r) (rowCost r)) d =
            some ⟨x.sku, x.productName, x.unit, x.usageAmount + rowUsage r,
              x.cost + rowCost r⟩ := by
          rw [lookup_addToMap, h]
          simp [hd]
        rw [ih _ d _ h', sumUsage_cons, sumCost_cons]
        simp [hv, hd, add_assoc]
      · have h' : lookup
            (addToMap acc (rowSku r) (rowName r) (cell r 3) (rowUsage r) (rowCost r)) d =
            some x := by
          rw [lookup_addToMap, h]
          simp [hd]
        rw [ih _ d _ h', sumUsage_cons, sumCost_cons]
        simp [hd]
    · rw [processRow_invalid _ _ (Bool.not_eq_true _ ▸ hv), ih _ d _ h,
        sumUsage_cons, sumCost_cons]
      simp [hv]

lemma foldl_lookup_none (rows : List (List String)) :
    ∀ (acc : List OCIConsumptionRow) (d : String),
      lookup acc d = none →
      lookup (rows.foldl processRow acc) d =
        ((vrows rows d).head?).map
          (fun r => ⟨d, rowName r, cell r 3, sumUsage rows d, sumCost rows d⟩) := by
  induction rows with
  | nil =>
    intro acc d h
    simpa [vrows] using h
  | cons r rest ih =>
    intro acc d h
    simp only [List.foldl_cons]
    by_cases hv : validRow r = true
    · rw [processRow_valid _ _ hv]
      by_cases hd : rowSku r = d
      · have h' : lookup
            (addToMap acc (rowSku r) (rowName r) (cell r 3) (rowUsage r) (rowCost r)) d =
            some ⟨rowSku r, rowName r, cell r 3, rowUsage r, rowCost r⟩ := by
          rw [lookup_addToMap, h]
          simp [hd]
        rw [foldl_lookup_some rest _ d _ h', vrows_cons, if_pos ⟨hv, hd⟩,
          sumUsage_cons, sumCost_cons, if_pos ⟨hv, hd⟩, if_pos ⟨hv, hd⟩]
        simp [hd]
      · have h' : lookup
            (addToMap acc (rowSku r) (rowName r) (cell r 3) (rowUsage r) (rowCost r)) d =
            none := by
          rw [lookup_addToMap, h]
          simp [hd]
        rw [ih _ d h', vrows_cons, sumUsage_cons, sumCost_cons]
        simp [hd]
    · rw [processRow_invalid _ _ (Bool.not_eq_true _ ▸ hv), ih _ d h,
        vrows_cons, sumUsage_cons, sumCost_cons]
      simp [hv]

/-- Complete characterization of a SKU's entry after the whole loop: it
exists exactly when some valid row has that SKU; its name and unit come from
the first such row; its usage and cost are the sums over all of them. -/
lemma lookup_foldRows (rows : List (List String)) (d : String) :
    lookup (foldRows rows) d =
      ((vrows rows d).head?).map
        (fun r => ⟨d, rowName r, cell r 3, sumUsage rows d, sumCost rows d⟩) :=
  foldl_lookup_none rows [] d rfl

lemma foldl_sku_nodup (rows : List (List String)) :
    ∀ acc : List OCIConsumptionRow, (acc.map OCIConsumptionRow.sku).Nodup →
      ((rows.foldl processRow acc).map OCIConsumptionRow.sku).Nodup := by
  induction rows with
  | nil => exact fun acc h => h
  | cons r rest ih =>
    intro acc h
    simp only [List.foldl_cons]
    by_cases hv : validRow r = true
    · rw [processRow_valid _ _ hv]
      apply ih
      rw [addToMap_sku_map]
      split
      · exact h
      · next hmem => simp [List.nodup_append, h, hmem]
    · rw [processRow_invalid _ _ (Bool.not_eq_true _ ▸ hv)]
      exact ih _ h

lemma foldRows_sku_nodup (rows : List (List String)) :
    ((foldRows rows).map OCIConsumptionRow.sku).Nodup :=
  foldl_sku_nodup rows [] (by simp)

lemma filter_eq_lookup_toList (l : List OCIConsumptionRow) (d : String)
    (h : (l.map OCIConsumptionRow.sku).Nodup) :
    l.filter (fun it => decide (it.sku = d)) = (lookup l d).toList := by
  induction l with
  | nil => rfl
  | cons x xs ih =>
    simp only [List.map_cons, List.nodup_cons] at h
    by_cases hx : x.sku = d
    · subst hx
      have hnil : xs.filter (fun it => decide (it.sku = x.sku)) = [] := by
        rw [List.filter_eq_nil_iff]
        intro a ha hsku
        exact h.1 (List.mem_map.2 ⟨a, ha, (by simpa using hsku)⟩)
      simp [List.filter_cons, lookup_cons, hnil]
    · simp [List.filter_cons, lookup_cons, hx, ih h.2]

/-- The aggregation output characterized per SKU id: the sublist of output
items with SKU `d` is empty when no valid row has id `d`, and otherwise is
exactly one item whose name and unit come from the first valid row with id
`d` and whose usage and cost are sums over all of them. -/
lemma aggregate_filter (rows : List (List String)) (d : String) :
    (aggregate rows).filter (fun it => decide (it.sku = d)) =
      (((vrows rows d).head?).map
        (fun r => (⟨d, rowName r, cell r 3, sumUsage rows d, sumCost rows d⟩ :
          OCIConsumptionRow))).toList := by
  have hperm : (aggregate rows).Perm (foldRows rows) :=
    List.perm_insertionSort _ _
  have h1 : ((aggregate rows).filter (fun it => decide (it.sku = d))).Perm
      ((foldRows rows).filter (fun it => decide (it.sku = d))) :=
    hperm.filter _
  have h2 : (foldRows rows).filter (fun it => decide (it.sku = d)) =
      (lookup (foldRows rows) d).toList :=
    filter_eq_lookup_toList _ _ (foldRows_sku_nodup rows)
  rw [lookup_foldRows] at h2
  cases hh : (vrows rows d).head? with
  | none =>
    rw [hh] at h2
    have h3 := h1
    rw [h2] at h3
    simp only [Option.map, Option.toList] at h3 ⊢
    exact List.perm_nil.mp h3
  | some r =>
    rw [hh] at h2
    have h3 := h1
    rw [h2] at h3
    simp only [Option.map, Option.toList] at h3 ⊢
    exact List.perm_singleton.mp h3

lemma validIds_iff (rows : List (List String)) (d : String) :
    d ∈ validIds rows ↔ vrows rows d ≠ [] := by
  constructor
  · intro hmem hnil
    rcases List.mem_map.1 hmem with ⟨r, hr, hsku⟩
    rcases List.mem_filter.1 hr with ⟨hrows, hvr⟩
    have hmem2 : r ∈ vrows rows d :=
      List.mem_filter.2 ⟨hrows, by simp [hvr, hsku]⟩
    exact absurd (hnil ▸ hmem2) (List.not_mem_nil r)
  · intro hne
    rcases List.exists_mem_of_ne_nil _ hne with ⟨r, hr⟩
    rcases List.mem_filter.1 hr with ⟨hrows, hcond⟩
    rw [Bool.and_eq_true] at hcond
    exact List.mem_map.2 ⟨r, List.mem_filter.2 ⟨hrows, hcond.1⟩,
      of_decide_eq_true hcond.2⟩

lemma validRow_eq_false (row : List String) :
    validRow row = false ↔ ¬ (9 ≤ row.length ∧ cell row 2 ≠ "") := by
  rw [← validRow_iff]
  cases validRow row <;> simp

/-! ### The first-occurrence property of the separator search -/

lemma firstDashIdx_some (cs : List Char) :
    ∀ i, firstDashIdx cs = some i →
      sepChars.isPrefixOf (cs.drop i) = true ∧
      ∀ j, j < i → sepChars.isPrefixOf (cs.drop j) = false := by
  induction cs with
  | nil => intro i h; simp [firstDashIdx] at h
  | cons c rest ih =>
    intro i h
    by_cases hp : sepChars.isPrefixOf (c :: rest) = true
    · simp only [firstDashIdx, if_pos hp, Option.some.injEq] at h
      subst h
      exact ⟨hp, fun j hj => absurd hj (by omega)⟩
    · simp only [firstDashIdx, if_neg hp] at h
      cases hr : firstDashIdx rest with
      | none => rw [hr] at h; simp at h
      | some k =>
        rw [hr] at h
        simp only [Option.map_some', Option.some.injEq] at h
        subst h
        obtain ⟨h1, h2⟩ := ih k hr
        refine ⟨by simpa [List.drop_succ_cons] using h1, fun j hj => ?_⟩
        cases j with
        | zero =>
          rw [List.drop_zero]
          exact (Bool.not_eq_true _) ▸ hp
        | succ j' =>
          rw [List.drop_succ_cons]
          exact h2 j' (by omega)

lemma firstDashIdx_none (cs : List Char) (h : firstDashIdx cs = none) :
    ∀ j, sepChars.isPrefixOf (cs.drop j) = false := by
  induction cs with
  | nil => intro j; rw [List.drop_nil]; decide
  | cons c rest ih =>
    intro j
    by_cases hp : sepChars.isPrefixOf (c :: rest) = true
    · simp [firstDashIdx, hp] at h
    · simp only [firstDashIdx, if_neg hp] at h
      cases hr : firstDashIdx rest with
      | some k => rw [hr] at h; simp at h
      | none =>
        cases j with
        | zero =>
          rw [List.drop_zero]
          exact (Bool.not_eq_true _) ▸ hp
        | succ j' =>
          rw [List.drop_succ_cons]
          exact ih hr j'

/-! ### The claims -/

/-- C6: for every valid row, the description cell is split on the FIRST
occurrence of the literal separator " - ": when the separator occurs at
(first) index i, the trimmed text before it is the id and the trimmed text
after it is the description; when it is absent the whole trimmed cell is
both. -/
theorem splitSku_splits_on_first_sep (s : String) :
    (∀ i, firstDashIdx s.data = some i →
        sepChars.isPrefixOf (s.data.drop i) = true ∧
        (∀ j, j < i → sepChars.isPrefixOf (s.data.drop j) = false) ∧
        splitSku s = (strTrim ⟨s.data.take i⟩, strTrim ⟨s.data.drop (i + 3)⟩)) ∧
    (firstDashIdx s.data = none →
        (∀ j, sepChars.isPrefixOf (s.data.drop j) = false) ∧
        splitSku s = (strTrim s, strTrim s)) := by
  constructor
  · intro i h
    obtain ⟨h1, h2⟩ := firstDashIdx_some s.data i h
    exact ⟨h1, h2, by simp only [splitSku, h]⟩
  · intro h
    exact ⟨firstDashIdx_none s.data h, by simp only [splitSku, h]⟩

theorem splitSku_splits_on_first_sep_witness :
    splitSku ("B91214 - Compute - E4") = (("B91214"), ("Compute - E4")) :=
  (((splitSku_splits_on_first_sep ("B91214 - Compute - E4")).1 6
    (by decide)).2.2).trans (by decide)

/-- C4: for every input row sequence the aggregation output is sorted by
cost (the claim's "amount") in non-increasing order. -/
theorem aggregate_sorted_by_cost_desc (rows : List (List String)) :
    List.Pairwise (fun a b => b.cost ≤ a.cost) (aggregate rows) := by
  haveI : IsTotal OCIConsumptionRow (fun a b => b.cost ≤ a.cost) :=
    ⟨fun a b => le_total b.cost a.cost⟩
  haveI : IsTrans OCIConsumptionRow (fun a b => b.cost ≤ a.cost) :=
    ⟨fun _ _ _ hab hbc => le_trans hbc hab⟩
  exact List.sorted_insertionSort _ (foldRows rows)

/-- C9: the aggregation is deterministic: it is a pure function of the
input row sequence, so two runs on the same input yield outputs that are
equal, in particular equal as multisets of items (ignoring tie order). -/
theorem aggregate_deterministic (data : List (List String)) :
    processCSVData data = processCSVData data ∧
    (aggregate (stripHeader data)).Perm (aggregate (stripHeader data)) :=
  ⟨rfl, List.Perm.refl _⟩

/-- C5: the first row is discarded before processing exactly when its first
cell equals "Subscription Plan Number"; a row with that first cell at any
later position is kept and processed as data (second example: the sentinel
row in position 1 produces the item with SKU "S"). -/
theorem header_stripped_iff_first_cell_sentinel :
    (∀ (r : List String) (rs : List (List String)),
        processCSVData (r :: rs) =
          some (aggregate (if r.head? = some headerSentinel then rs else r :: rs))) ∧
    processCSVData
        [["Subscription Plan Number", "", "S - T", "U", "1", "", "", "", "3"]] =
      some [] ∧
    processCSVData
        [["", "", "A - B", "U", "1", "", "", "", "5"],
         ["Subscription Plan Number", "", "S - T", "U", "1", "", "", "", "3"]] =
      some [⟨("A"), ("B"), ("U"), 1, 5⟩, ⟨("S"), ("T"), ("U"), 1, 3⟩] := by
  refine ⟨fun r rs => ?_, by decide, by decide⟩
  simp only [processCSVData, stripHeader, if_neg (List.cons_ne_nil r rs),
    List.head?_cons, Option.some_bind, List.tail_cons]

/-- C8 counterexample: on the entirely empty input the routine returns
early and publishes NO inventory (modelled by `none`); it does not produce
an empty output sequence. -/
theorem empty_input_publishes_nothing :
    processCSVData [] ≠ some [] := by decide

/-- C8 amended: the aggregation is a total function (it never raises an
error for malformed rows) and every NONEMPTY input produces an aggregated
(possibly empty) output; but the entirely empty input causes an early
return that publishes no output at all, leaving the previous inventory in
place, rather than producing an empty output.  A nonempty input whose only
row is malformed yields the empty output. -/
theorem no_error_and_empty_input_returns_early :
    processCSVData [] = none ∧
    (∀ data : List (List String), data ≠ [] →
        processCSVData data = some (aggregate (stripHeader data))) ∧
    processCSVData [[""]] = some [] := by
  refine ⟨rfl, fun data h => ?_, by decide⟩
  rw [processCSVData, if_neg h]

theorem no_error_and_empty_input_returns_early_witness :
    processCSVData [[""]] = some (aggregate (stripHeader [[""]])) :=
  no_error_and_empty_input_returns_early.2.1 [[""]] (by decide)

/-- C3 counterexample: the row whose description cell is the single space
" " has 9 cells, and the claim says it is skipped (description empty after
trimming); but the code only tests JavaScript falsiness of the untrimmed
cell, so the row is processed and yields an item with empty id. -/
theorem whitespace_description_not_skipped :
    aggregate [["", "", " ", "U", "1", "", "", "", "2"]] =
      [⟨(""), (""), ("U"), 1, 2⟩] ∧
    aggregate [["", "", " ", "U", "1", "", "", "", "2"]] ≠ [] := by
  constructor <;> decide

/-- C3 amended: a row is silently skipped (no effect on the aggregation)
if and only if it has fewer than 9 cells or its description cell is exactly
the empty string — no trimming is applied to this emptiness test, so a
whitespace-only description cell is NOT skipped. -/
theorem row_skipped_iff_short_or_empty_description :
    (∀ (acc : List OCIConsumptionRow) (row : List String),
        processRow acc row =
          if 9 ≤ row.length ∧ cell row 2 ≠ "" then
            addToMap acc (rowSku row) (rowName row) (cell row 3)
              (rowUsage row) (rowCost row)
          else acc) ∧
    (∀ (pre post : List (List String)) (r : List String),
        ¬ (9 ≤ r.length ∧ cell r 2 ≠ "") →
        foldRows (pre ++ r :: post) = foldRows (pre ++ post)) := by
  constructor
  · intro acc row
    by_cases h : 9 ≤ row.length ∧ cell row 2 ≠ ""
    · rw [if_pos h, processRow_valid _ _ ((validRow_iff row).2 h)]
    · rw [if_neg h]
      exact processRow_invalid _ _ ((validRow_eq_false row).2 h)
  · intro pre post r h
    unfold foldRows
    rw [List.foldl_append, List.foldl_append, List.foldl_cons,
      processRow_invalid _ _ ((validRow_eq_false r).2 h)]

theorem row_skipped_iff_short_or_empty_description_witness :
    (processRow [] [] =
      if 9 ≤ ([] : List String).length ∧ cell [] 2 ≠ "" then
        addToMap [] (rowSku []) (rowName []) (cell [] 3) (rowUsage []) (rowCost [])
      else []) ∧
    foldRows ([] ++ ([] : List String) :: []) = foldRows ([] ++ []) :=
  ⟨row_skipped_iff_short_or_empty_description.1 [] [],
   row_skipped_iff_short_or_empty_description.2 [] [] [] (by decide)⟩

/-- C2: the defaulting is per field: a quantity cell that fails to parse
contributes 0 for the quantity regardless of the amount cell, and an amount
cell that fails to parse contributes 0 for the amount regardless of the
quantity cell; a valid row is folded in whatever its parse outcomes (never
dropped, never an error), and when its id is fresh its id, description and
unit are still appended to the map.  Examples: the row with cells "abc"
and "not-a-number" yields (X, Y, U, 0, 0); the mixed rows with exactly one
unparsable cell yield (X, Y, U, 0, 7) and (X, Y, U, 7, 0). -/
theorem unparsable_numbers_default_to_zero :
    (∀ row : List String, parseFloatQ (cell row 4) = none → rowUsage row = 0) ∧
    (∀ row : List String, parseFloatQ (cell row 8) = none → rowCost row = 0) ∧
    (∀ (row : List String) (acc : List OCIConsumptionRow),
        validRow row = true →
        processRow acc row =
          addToMap acc (rowSku row) (rowName row) (cell row 3)
            (rowUsage row) (rowCost row)) ∧
    (∀ (acc : List OCIConsumptionRow) (i pn u : String) (q c : ℚ),
        lookup acc i = none → addToMap acc i pn u q c = acc ++ [⟨i, pn, u, q, c⟩]) ∧
    aggregate [["", "", "X - Y", "U", "abc", "", "", "", "not-a-number"]] =
      [⟨("X"), ("Y"), ("U"), 0, 0⟩] ∧
    aggregate [["", "", "X - Y", "U", "abc", "", "", "", "7"]] =
      [⟨("X"), ("Y"), ("U"), 0, 7⟩] ∧
    aggregate [["", "", "X - Y", "U", "7", "", "", "", "not-a-number"]] =
      [⟨("X"), ("Y"), ("U"), 7, 0⟩] := by
  refine ⟨?_, ?_, fun row acc hv => processRow_valid acc row hv, ?_,
    by decide, by decide, by decide⟩
  · intro row h4
    unfold rowUsage jsNum
    rw [h4]
    rfl
  · intro row h8
    unfold rowCost jsNum
    rw [h8]
    rfl
  · intro acc i pn u q c hl
    induction acc with
    | nil => rfl
    | cons x xs ih =>
      rw [lookup_cons] at hl
      by_cases hx : x.sku = i
      · rw [if_pos hx] at hl
        exact absurd hl (by simp)
      · rw [if_neg hx] at hl
        simp [addToMap, hx, ih hl]

theorem unparsable_numbers_default_to_zero_witness :
    rowUsage ["", "", "X - Y", "U", "abc", "", "", "", "7"] = 0 ∧
    rowCost ["", "", "X - Y", "U", "7", "", "", "", "not-a-number"] = 0 ∧
    (processRow [] ["", "", "X - Y", "U", "abc", "", "", "", "7"] =
      addToMap [] (rowSku ["", "", "X - Y", "U", "abc", "", "", "", "7"])
        (rowName ["", "", "X - Y", "U", "abc", "", "", "", "7"])
        (cell ["", "", "X - Y", "U", "abc", "", "", "", "7"] 3)
        (rowUsage ["", "", "X - Y", "U", "abc", "", "", "", "7"])
        (rowCost ["", "", "X - Y", "U", "abc", "", "", "", "7"])) ∧
    addToMap [] ("X") ("Y") ("U") 0 0 = [] ++ [⟨("X"), ("Y"), ("U"), 0, 0⟩] :=
  ⟨unparsable_numbers_default_to_zero.1 _ (by decide),
   unparsable_numbers_default_to_zero.2.1 _ (by decide),
   unparsable_numbers_default_to_zero.2.2.1 _ [] (by decide),
   unparsable_numbers_default_to_zero.2.2.2.1 [] ("X") ("Y") ("U") 0 0 rfl⟩

/-- C10 (implicit): a quantity or amount cell that begins with a valid
numeric prefix followed by junk contributes the value of the prefix, not 0;
only cells with no parsable leading number default to 0.  In the example,
"12abc" parses to 12 and "3.5xyz" to 3.5 (written `mkRat 7 2`). -/
theorem numeric_prefix_is_parsed :
    parseFloatQ ("12abc") = some 12 ∧
    (∀ (row : List String) (q : ℚ),
        parseFloatQ (cell row 4) = some q → rowUsage row = q) ∧
    (∀ (row : List String) (q : ℚ),
        parseFloatQ (cell row 8) = some q → rowCost row = q) ∧
    aggregate [["", "", "X - Y", "U", "12abc", "", "", "", "3.5xyz"]] =
      [⟨("X"), ("Y"), ("U"), 12, mkRat 7 2⟩] := by
  refine ⟨by decide, ?_, ?_, by decide⟩
  · intro row q h
    unfold rowUsage jsNum
    rw [h]
    rfl
  · intro row q h
    unfold rowCost jsNum
    rw [h]
    rfl

theorem numeric_prefix_is_parsed_witness :
    rowUsage ["", "", "X - Y", "U", "12abc", "", "", "", "3.5xyz"] = 12 :=
  numeric_prefix_is_parsed.2.1 _ 12 (by decide)

/-- C1: for every input row sequence the output has exactly one item per
distinct extracted id among valid rows, and that item's quantity and amount
are the sums of the parsed quantity and amount over all valid rows sharing
the id; the two example rows with description "B91214 - Compute - E4"
aggregate to the single item (B91214, Compute - E4, OCPU/Hour, 250, 125). -/
theorem aggregate_unique_ids_and_sums :
    (∀ (rows : List (List String)) (d : String),
        ((aggregate rows).filter (fun it => decide (it.sku = d))).length =
          (if d ∈ validIds rows then 1 else 0) ∧
        ∀ it ∈ aggregate rows, it.sku = d →
          it.usageAmount = sumUsage rows d ∧ it.cost = sumCost rows d) ∧
    processCSVData
        [["", "", "B91214 - Compute - E4", "OCPU/Hour", "100", "", "", "", "50.00"],
         ["", "", "B91214 - Compute - E4", "OCPU/Hour", "150", "", "", "", "75.00"]] =
      some [⟨("B91214"), ("Compute - E4"), ("OCPU/Hour"), 250, 125⟩] := by
  refine ⟨fun rows d => ⟨?_, ?_⟩, ?_⟩
  · rw [aggregate_filter]
    cases hh : (vrows rows d).head? with
    | none =>
      have hnil : vrows rows d = [] := by
        cases hv : vrows rows d
        · rfl
        · rw [hv] at hh
          simp at hh
      rw [if_neg (fun hmem => (validIds_iff rows d).1 hmem hnil)]
      simp [Option.toList]
    | some r =>
      have hne : vrows rows d ≠ [] := by
        intro hv
        rw [hv] at hh
        simp at hh
      rw [if_pos ((validIds_iff rows d).2 hne)]
      simp [Option.toList]
  · intro it hmem hsku
    have h1 : it ∈ (aggregate rows).filter (fun it => decide (it.sku = d)) :=
      List.mem_filter.2 ⟨hmem, by simp [hsku]⟩
    rw [aggregate_filter] at h1
    cases hh : (vrows rows d).head? with
    | none =>
      rw [hh] at h1
      simp [Option.toList] at h1
    | some r =>
      rw [hh] at h1
      simp only [Option.map, Option.toList, List.mem_singleton] at h1
      rw [h1]
      exact ⟨rfl, rfl⟩
  · have e1 : processRow []
        ["", "", "B91214 - Compute - E4", "OCPU/Hour", "100", "", "", "", "50.00"] =
        [⟨("B91214"), ("Compute - E4"), ("OCPU/Hour"), 100, 50⟩] := by decide
    have hv2 : validRow
        ["", "", "B91214 - Compute - E4", "OCPU/Hour", "150", "", "", "", "75.00"] =
        true := by decide
    have e2 : processRow [⟨("B91214"), ("Compute - E4"), ("OCPU/Hour"), (100 : ℚ), 50⟩]
        ["", "", "B91214 - Compute - E4", "OCPU/Hour", "150", "", "", "", "75.00"] =
        [⟨("B91214"), ("Compute - E4"), ("OCPU/Hour"), 250, 125⟩] := by
      rw [processRow_valid _ _ hv2,
        show rowSku ["", "", "B91214 - Compute - E4", "OCPU/Hour", "150", "", "", "",
          "75.00"] = ("B91214") from by decide,
        show rowUsage ["", "", "B91214 - Compute - E4", "OCPU/Hour", "150", "", "", "",
          "75.00"] = (150 : ℚ) from by decide,
        show rowCost ["", "", "B91214 - Compute - E4", "OCPU/Hour", "150", "", "", "",
          "75.00"] = (75 : ℚ) from by decide]
      simp only [addToMap, if_pos rfl]
      norm_num
    have e3 : foldRows
        [["", "", "B91214 - Compute - E4", "OCPU/Hour", "100", "", "", "", "50.00"],
         ["", "", "B91214 - Compute - E4", "OCPU/Hour", "150", "", "", "", "75.00"]] =
        [⟨("B91214"), ("Compute - E4"), ("OCPU/Hour"), 250, 125⟩] := by
      show processRow (processRow []
        ["", "", "B91214 - Compute - E4", "OCPU/Hour", "100", "", "", "", "50.00"])
        ["", "", "B91214 - Compute - E4", "OCPU/Hour", "150", "", "", "", "75.00"] = _
      rw [e1, e2]
    have e4 : stripHeader
        [["", "", "B91214 - Compute - E4", "OCPU/Hour", "100", "", "", "", "50.00"],
         ["", "", "B91214 - Compute - E4", "OCPU/Hour", "150", "", "", "", "75.00"]] =
        [["", "", "B91214 - Compute - E4", "OCPU/Hour", "100", "", "", "", "50.00"],
         ["", "", "B91214 - Compute - E4", "OCPU/Hour", "150", "", "", "", "75.00"]] := by
      decide
    rw [processCSVData, if_neg (by simp), e4, aggregate, e3]
    rfl

theorem aggregate_unique_ids_and_sums_witness :
    (⟨("X"), ("Y"), ("U"), 2, 3⟩ : OCIConsumptionRow).usageAmount =
        sumUsage [["", "", "X - Y", "U", "2", "", "", "", "3"]] ("X") ∧
    (⟨("X"), ("Y"), ("U"), 2, 3⟩ : OCIConsumptionRow).cost =
        sumCost [["", "", "X - Y", "U", "2", "", "", "", "3"]] ("X") := by
  have hagg : aggregate [["", "", "X - Y", "U", "2", "", "", "", "3"]] =
      [⟨("X"), ("Y"), ("U"), 2, 3⟩] := by decide
  exact (aggregate_unique_ids_and_sums.1
      [["", "", "X - Y", "U", "2", "", "", "", "3"]] ("X")).2
    _ (by rw [hagg]; exact List.mem_singleton.2 rfl) rfl

/-- C7: for every input and id, the output item's unit and description are
those of the FIRST valid row with that id (the unit verbatim from cell 3,
no trimming or re-validation), never overwritten by later rows; later rows
with the same id only contribute to the usage and cost sums. -/
theorem unit_and_name_from_first_row (rows : List (List String)) (d : String)
    (r₀ : List String) (h : (vrows rows d).head? = some r₀) :
    ∀ it ∈ aggregate rows, it.sku = d →
      it.unit = cell r₀ 3 ∧ it.productName = rowName r₀ ∧
      it.usageAmount = sumUsage rows d ∧ it.cost = sumCost rows d := by
  intro it hmem hsku
  have h1 : it ∈ (aggregate rows).filter (fun it => decide (it.sku = d)) :=
    List.mem_filter.2 ⟨hmem, by simp [hsku]⟩
  rw [aggregate_filter, h] at h1
  simp only [Option.map, Option.toList, List.mem_singleton] at h1
  rw [h1]
  exact ⟨rfl, rfl, rfl, rfl⟩

theorem unit_and_name_from_first_row_witness :
    (⟨("A"), ("B"), ("U1"), 1, 2⟩ : OCIConsumptionRow).unit =
        cell ["", "", "A - B", "U1", "1", "", "", "", "2"] 3 ∧
    (⟨("A"), ("B"), ("U1"), 1, 2⟩ : OCIConsumptionRow).productName =
        rowName ["", "", "A - B", "U1", "1", "", "", "", "2"] ∧
    (⟨("A"), ("B"), ("U1"), 1, 2⟩ : OCIConsumptionRow).usageAmount =
        sumUsage [["", "", "A - B", "U1", "1", "", "", "", "2"]] ("A") ∧
    (⟨("A"), ("B"), ("U1"), 1, 2⟩ : OCIConsumptionRow).cost =
        sumCost [["", "", "A - B", "U1", "1", "", "", "", "2"]] ("A") := by
  have hagg : aggregate [["", "", "A - B", "U1", "1", "", "", "", "2"]] =
      [⟨("A"), ("B"), ("U1"), 1, 2⟩] := by decide
  exact unit_and_name_from_first_row
    [["", "", "A - B", "U1", "1", "", "", "", "2"]] ("A")
    ["", "", "A - B", "U1", "1", "", "", "", "2"] (by decide)
    _ (by rw [hagg]; exact List.mem_singleton.2 rfl) rfl

end OCIHorizon
